import Mathlib

/-!
Verification of the Open3D `PointCloud` geometry module
(`src/Open3D/Geometry/PointCloud.cpp`) against its specification.

Scalars are modelled by `ℚ` (exact arithmetic in place of IEEE doubles);
3-D vectors by triples; the point cloud by three lists (points, normals,
colors).  Statistics that end in `std::sqrt` are modelled by their squared
values, with `Real.sqrt` applied in the statements where the specification
speaks of the final Euclidean distance.
-/

namespace Open3D

/-- A 3-D vector (Eigen::Vector3d), with exact rational coordinates. -/
abbrev Pt := ℚ × ℚ × ℚ

/-- The zero vector, also used as the value-initialised element produced by
`std::vector::resize`. -/
def vzero : Pt := (0, 0, 0)

/-- Coordinate 0 (x) of a vector. -/
def px (p : Pt) : ℚ := p.1

/-- Coordinate 1 (y) of a vector. -/
def py (p : Pt) : ℚ := p.2.1

/-- Coordinate 2 (z) of a vector. -/
def pz (p : Pt) : ℚ := p.2.2

/-- Coordinate accessor indexed by axis, `coord a p = p(a)` in Eigen notation. -/
def coord (a : Fin 3) (p : Pt) : ℚ :=
  match a with
  | ⟨0, _⟩ => p.1
  | ⟨1, _⟩ => p.2.1
  | ⟨2, _⟩ => p.2.2

/-- The point-cloud container: `points_`, `normals_`, `colors_`. -/
structure PointCloud where
  points : List Pt
  normals : List Pt
  colors : List Pt
deriving DecidableEq

/-- Modelled from the spec: `PointCloud.h` is not among the sources; §4.1 says
`IsEmpty` is "true iff the point sequence is empty", so `HasPoints` holds iff
the point sequence is non-empty. -/
def HasPoints (pc : PointCloud) : Prop := pc.points ≠ []

instance (pc : PointCloud) : Decidable (HasPoints pc) :=
  inferInstanceAs (Decidable (pc.points ≠ []))

/-- PointCloud::IsEmpty, from the source: `return !HasPoints();`. -/
def IsEmpty (pc : PointCloud) : Prop := ¬ HasPoints pc

instance (pc : PointCloud) : Decidable (IsEmpty pc) :=
  inferInstanceAs (Decidable (¬ HasPoints pc))

/-- Modelled from the spec: `PointCloud.h` is not among the sources; §3 says the
normals sequence is "either empty or exactly the same length" as the points,
so the attribute is present iff the sequence is non-empty. -/
def HasNormals (pc : PointCloud) : Prop := pc.normals ≠ []

instance (pc : PointCloud) : Decidable (HasNormals pc) :=
  inferInstanceAs (Decidable (pc.normals ≠ []))

/-- Modelled from the spec: `PointCloud.h` is not among the sources; §3 says the
colors sequence is "either empty or exactly the same length" as the points,
so the attribute is present iff the sequence is non-empty. -/
def HasColors (pc : PointCloud) : Prop := pc.colors ≠ []

instance (pc : PointCloud) : Decidable (HasColors pc) :=
  inferInstanceAs (Decidable (pc.colors ≠ []))

/-- Running minimum of `f` over a list, started at `a`: the value returned by
`std::min_element` with the per-axis comparator, read off at that axis. -/
def foldMin (f : Pt → ℚ) (a : ℚ) (l : List Pt) : ℚ :=
  l.foldl (fun m q => min m (f q)) a

/-- Running maximum of `f` over a list, started at `a`: the value returned by
`std::max_element` with the per-axis comparator, read off at that axis. -/
def foldMax (f : Pt → ℚ) (a : ℚ) (l : List Pt) : ℚ :=
  l.foldl (fun m q => max m (f q)) a

/-- PointCloud::GetMinBound: zero vector when no points, else the per-axis
minimum over all points (the value of `std::min_element` per axis). -/
def GetMinBound (pc : PointCloud) : Pt :=
  match pc.points with
  | [] => vzero
  | p :: ps => (foldMin px (px p) ps, foldMin py (py p) ps, foldMin pz (pz p) ps)

/-- PointCloud::GetMaxBound: zero vector when no points, else the per-axis
maximum over all points (the value of `std::max_element` per axis). -/
def GetMaxBound (pc : PointCloud) : Pt :=
  match pc.points with
  | [] => vzero
  | p :: ps => (foldMax px (px p) ps, foldMax py (py p) ps, foldMax pz (pz p) ps)

lemma foldMin_le_init (f : Pt → ℚ) (a : ℚ) (l : List Pt) : foldMin f a l ≤ a := by
  induction l generalizing a with
  | nil => exact le_refl a
  | cons q qs ih =>
      calc foldMin f (min a (f q)) qs ≤ min a (f q) := ih _
        _ ≤ a := min_le_left _ _

lemma foldMin_le_mem (f : Pt → ℚ) (a : ℚ) (l : List Pt) (q : Pt) (hq : q ∈ l) :
    foldMin f a l ≤ f q := by
  induction l generalizing a with
  | nil => cases hq
  | cons r rs ih =>
      rcases List.mem_cons.mp hq with h | h
      · subst h
        calc foldMin f (min a (f q)) rs ≤ min a (f q) := foldMin_le_init _ _ _
          _ ≤ f q := min_le_right _ _
      · exact ih _ h

lemma foldMin_attained (f : Pt → ℚ) (a : ℚ) (l : List Pt) :
    foldMin f a l = a ∨ ∃ q ∈ l, foldMin f a l = f q := by
  induction l generalizing a with
  | nil => exact Or.inl rfl
  | cons r rs ih =>
      rcases ih (min a (f r)) with h | ⟨q, hq, h⟩
      · rcases min_cases a (f r) with ⟨hm, _⟩ | ⟨hm, _⟩
        · exact Or.inl (by rw [show foldMin f a (r :: rs) = foldMin f (min a (f r)) rs from rfl, h, hm])
        · exact Or.inr ⟨r, List.mem_cons_self _ _,
            by rw [show foldMin f a (r :: rs) = foldMin f (min a (f r)) rs from rfl, h, hm]⟩
      · exact Or.inr ⟨q, List.mem_cons_of_mem _ hq,
          by rw [show foldMin f a (r :: rs) = foldMin f (min a (f r)) rs from rfl, h]⟩

lemma foldMax_init_le (f : Pt → ℚ) (a : ℚ) (l : List Pt) : a ≤ foldMax f a l := by
  induction l generalizing a with
  | nil => exact le_refl a
  | cons q qs ih =>
      calc a ≤ max a (f q) := le_max_left _ _
        _ ≤ foldMax f (max a (f q)) qs := ih _

lemma foldMax_mem_le (f : Pt → ℚ) (a : ℚ) (l : List Pt) (q : Pt) (hq : q ∈ l) :
    f q ≤ foldMax f a l := by
  induction l generalizing a with
  | nil => cases hq
  | cons r rs ih =>
      rcases List.mem_cons.mp hq with h | h
      · subst h
        calc f q ≤ max a (f q) := le_max_right _ _
          _ ≤ foldMax f (max a (f q)) rs := foldMax_init_le _ _ _
      · exact ih _ h

lemma foldMax_attained (f : Pt → ℚ) (a : ℚ) (l : List Pt) :
    foldMax f a l = a ∨ ∃ q ∈ l, foldMax f a l = f q := by
  induction l generalizing a with
  | nil => exact Or.inl rfl
  | cons r rs ih =>
      rcases ih (max a (f r)) with h | ⟨q, hq, h⟩
      · rcases max_cases a (f r) with ⟨hm, _⟩ | ⟨hm, _⟩
        · exact Or.inl (by rw [show foldMax f a (r :: rs) = foldMax f (max a (f r)) rs from rfl, h, hm])
        · exact Or.inr ⟨r, List.mem_cons_self _ _,
            by rw [show foldMax f a (r :: rs) = foldMax f (max a (f r)) rs from rfl, h, hm]⟩
      · exact Or.inr ⟨q, List.mem_cons_of_mem _ hq,
          by rw [show foldMax f a (r :: rs) = foldMax f (max a (f r)) rs from rfl, h]⟩

lemma foldMin_spec (f : Pt → ℚ) (p : Pt) (ps : List Pt) :
    foldMin f (f p) ps ∈ (p :: ps).map f ∧ ∀ q ∈ p :: ps, foldMin f (f p) ps ≤ f q := by
  constructor
  · rcases foldMin_attained f (f p) ps with h | ⟨q, hq, h⟩
    · exact List.mem_map.mpr ⟨p, List.mem_cons_self _ _, h.symm⟩
    · exact List.mem_map.mpr ⟨q, List.mem_cons_of_mem _ hq, h.symm⟩
  · intro q hq
    rcases List.mem_cons.mp hq with h | h
    · subst h; exact foldMin_le_init _ _ _
    · exact foldMin_le_mem _ _ _ _ h

lemma foldMax_spec (f : Pt → ℚ) (p : Pt) (ps : List Pt) :
    foldMax f (f p) ps ∈ (p :: ps).map f ∧ ∀ q ∈ p :: ps, f q ≤ foldMax f (f p) ps := by
  constructor
  · rcases foldMax_attained f (f p) ps with h | ⟨q, hq, h⟩
    · exact List.mem_map.mpr ⟨p, List.mem_cons_self _ _, h.symm⟩
    · exact List.mem_map.mpr ⟨q, List.mem_cons_of_mem _ hq, h.symm⟩
  · intro q hq
    rcases List.mem_cons.mp hq with h | h
    · subst h; exact foldMax_init_le _ _ _
    · exact foldMax_mem_le _ _ _ _ h

/-- Concrete example cloud from §8 of the specification. -/
def ex4 : PointCloud :=
  ⟨[(0, 0, 0), (1, 0, 0), (0, 1, 0), (0, 0, 1)], [], []⟩

/-- C8: GetMinBound and GetMaxBound on an empty point set return the zero
vector, and on any non-empty point set return, independently for each axis,
the minimum (resp. maximum) coordinate over all points on that axis — a value
attained on that axis by some point, though the assembled corner need not be a
point of the set. -/
theorem c8_getBounds (pc : PointCloud) :
    (IsEmpty pc → GetMinBound pc = vzero ∧ GetMaxBound pc = vzero) ∧
    (¬ IsEmpty pc → ∀ a : Fin 3,
      (coord a (GetMinBound pc) ∈ pc.points.map (coord a) ∧
        ∀ q ∈ pc.points, coord a (GetMinBound pc) ≤ coord a q) ∧
      (coord a (GetMaxBound pc) ∈ pc.points.map (coord a) ∧
        ∀ q ∈ pc.points, coord a q ≤ coord a (GetMaxBound pc))) := by
  obtain ⟨pts, ns, cs⟩ := pc
  constructor
  · intro he
    have hp : pts = [] := not_not.mp he
    subst hp
    exact ⟨rfl, rfl⟩
  · intro hne a
    rcases pts with _ | ⟨p, ps⟩
    · exact absurd (show IsEmpty ⟨[], ns, cs⟩ by simp [IsEmpty, HasPoints]) hne
    · fin_cases a
      · exact ⟨⟨(foldMin_spec px p ps).1, fun q hq => (foldMin_spec px p ps).2 q hq⟩,
          (foldMax_spec px p ps).1, fun q hq => (foldMax_spec px p ps).2 q hq⟩
      · exact ⟨⟨(foldMin_spec py p ps).1, fun q hq => (foldMin_spec py p ps).2 q hq⟩,
          (foldMax_spec py p ps).1, fun q hq => (foldMax_spec py p ps).2 q hq⟩
      · exact ⟨⟨(foldMin_spec pz p ps).1, fun q hq => (foldMin_spec pz p ps).2 q hq⟩,
          (foldMax_spec pz p ps).1, fun q hq => (foldMax_spec pz p ps).2 q hq⟩

/-- Witness for C8 at the concrete four-point cloud of §8. -/
theorem c8_getBounds_witness :
    ¬ IsEmpty ex4 ∧
      (coord 0 (GetMinBound ex4) ∈ ex4.points.map (coord 0) ∧
        ∀ q ∈ ex4.points, coord 0 (GetMinBound ex4) ≤ coord 0 q) :=
  ⟨by decide, ((c8_getBounds ex4).2 (by decide) 0).1⟩

/-- A 4×4 affine transformation matrix (Eigen::Matrix4d), row-major fields. -/
structure Mat4 where
  m00 : ℚ
  m01 : ℚ
  m02 : ℚ
  m03 : ℚ
  m10 : ℚ
  m11 : ℚ
  m12 : ℚ
  m13 : ℚ
  m20 : ℚ
  m21 : ℚ
  m22 : ℚ
  m23 : ℚ
  m30 : ℚ
  m31 : ℚ
  m32 : ℚ
  m33 : ℚ
deriving DecidableEq

/-- Image of a point under PointCloud::Transform: the first three components of
`transformation * (p0, p1, p2, 1.0)`. -/
def xformPoint (M : Mat4) (p : Pt) : Pt :=
  (M.m00 * px p + M.m01 * py p + M.m02 * pz p + M.m03 * 1,
   M.m10 * px p + M.m11 * py p + M.m12 * pz p + M.m13 * 1,
   M.m20 * px p + M.m21 * py p + M.m22 * pz p + M.m23 * 1)

/-- Image of a normal under PointCloud::Transform: the first three components of
`transformation * (n0, n1, n2, 0.0)`. -/
def xformNormal (M : Mat4) (n : Pt) : Pt :=
  (M.m00 * px n + M.m01 * py n + M.m02 * pz n + M.m03 * 0,
   M.m10 * px n + M.m11 * py n + M.m12 * pz n + M.m13 * 0,
   M.m20 * px n + M.m21 * py n + M.m22 * pz n + M.m23 * 0)

/-- PointCloud::Transform: every point is replaced by its affine image, every
normal by its direction image, colors are left alone. -/
def Transform (M : Mat4) (pc : PointCloud) : PointCloud where
  points := pc.points.map (xformPoint M)
  normals := pc.normals.map (xformNormal M)
  colors := pc.colors

/-- Spec-side notion: the purely linear image of a vector, using only the
upper-left 3×3 block of the matrix (translation ignored). -/
def linearImage (M : Mat4) (v : Pt) : Pt :=
  (M.m00 * px v + M.m01 * py v + M.m02 * pz v,
   M.m10 * px v + M.m11 * py v + M.m12 * pz v,
   M.m20 * px v + M.m21 * py v + M.m22 * pz v)

/-- Spec-side notion: the translation column of an affine matrix. -/
def translationOf (M : Mat4) : Pt := (M.m03, M.m13, M.m23)

/-- Spec-side notion: the affine image of a point, linear part plus
translation (homogeneous coordinate 1). -/
def affineImage (M : Mat4) (v : Pt) : Pt :=
  (px (linearImage M v) + px (translationOf M),
   py (linearImage M v) + py (translationOf M),
   pz (linearImage M v) + pz (translationOf M))

/-- Translation by (1, 0, 0), the concrete example of §8. -/
def translateX1 : Mat4 :=
  ⟨1, 0, 0, 1, 0, 1, 0, 0, 0, 0, 1, 0, 0, 0, 0, 1⟩

/-- C9: Transform with a 4×4 affine matrix replaces every point by its affine
image (homogeneous coordinate 1, translation applied), every normal by its
linear image (homogeneous coordinate 0, translation ignored), and leaves the
colors unchanged; in particular a pure x-translation moves the point (0,0,0)
to (1,0,0) and leaves the normal (1,0,0) unchanged. -/
theorem c9_transform (M : Mat4) (pc : PointCloud) :
    ((Transform M pc).points = pc.points.map (affineImage M) ∧
     (Transform M pc).normals = pc.normals.map (linearImage M) ∧
     (Transform M pc).colors = pc.colors) ∧
    Transform translateX1 ⟨[(0, 0, 0)], [(1, 0, 0)], []⟩ =
      ⟨[(1, 0, 0)], [(1, 0, 0)], []⟩ := by
  refine ⟨⟨?_, ?_, rfl⟩, ?_⟩
  · have h : xformPoint M = affineImage M := by
      funext v
      simp [xformPoint, affineImage, linearImage, translationOf, px, py, pz, mul_one]
    simp [Transform, h]
  · have h : xformNormal M = linearImage M := by
      funext v
      simp [xformNormal, linearImage, px, py, pz]
    simp [Transform, h]
  · simp only [Transform, translateX1, xformPoint, xformNormal, px, py, pz,
      List.map_cons, List.map_nil]
    norm_num

/-- Size adjustment of `std::vector::resize(n)`: keep the first `n` elements,
pad with value-initialised elements up to length `n`. -/
def vecResize (v : List Pt) (n : Nat) : List Pt :=
  v.take n ++ List.replicate (n - v.length) vzero

/-- Sequential copy loop `for (i = 0; i < k; i++) dst[old + i] = cloud.src[i]`.
When `aliased` is true the source vector is the destination vector itself (self
append), so each read goes to the current state of the destination. -/
def copyFrom (aliased : Bool) (src : List Pt) (dst : List Pt) (old : Nat) : Nat → List Pt
  | 0 => dst
  | Nat.succ k =>
      let d := copyFrom aliased src dst old k
      d.set (old + k) ((cond aliased d src).getD k vzero)

/-- PointCloud::operator+= as executed on state `a` with argument cloud `b`;
`aliased` records whether the argument is the very same object (`A += A`), in
which case every read of the argument sees the current, partially updated
state, exactly as the underlying C++ vectors would. -/
def AddAssignCore (aliased : Bool) (a b : PointCloud) : PointCloud :=
  let cl := cond aliased a b
  if IsEmpty cl then a
  else
    let old_vert_num := a.points.length
    let add_vert_num := cl.points.length
    let new_vert_num := old_vert_num + add_vert_num
    let newNormals :=
      if (¬ HasPoints a ∨ HasNormals a) ∧ HasNormals cl then
        copyFrom aliased cl.normals (vecResize a.normals new_vert_num)
          old_vert_num add_vert_num
      else []
    let newColors :=
      if (¬ HasPoints a ∨ HasColors a) ∧ HasColors cl then
        copyFrom aliased cl.colors (vecResize a.colors new_vert_num)
          old_vert_num add_vert_num
      else []
    let newPoints :=
      copyFrom aliased cl.points (vecResize a.points new_vert_num)
        old_vert_num add_vert_num
    { points := newPoints, normals := newNormals, colors := newColors }

/-- PointCloud::operator+= with an argument that is a different object. -/
def AddAssign (a b : PointCloud) : PointCloud := AddAssignCore false a b

/-- PointCloud::operator+= applied to the cloud itself, `A += A`. -/
def SelfAddAssign (a : PointCloud) : PointCloud := AddAssignCore true a a

lemma getD_append_left (xs ys : List Pt) (k : Nat) (d : Pt) (h : k < xs.length) :
    (xs ++ ys).getD k d = xs.getD k d := by
  induction xs generalizing k with
  | nil => exact absurd h (Nat.not_lt_zero k)
  | cons x xt ih =>
      cases k with
      | zero => rfl
      | succ k =>
          simp only [List.cons_append, List.getD_cons_succ]
          exact ih k (Nat.lt_of_succ_lt_succ h)

lemma set_append_right (xs ys : List Pt) (k : Nat) (v : Pt) :
    (xs ++ ys).set (xs.length + k) v = xs ++ ys.set k v := by
  induction xs with
  | nil => simp
  | cons x xt ih =>
      have hidx : (x :: xt).length + k = (xt.length + k) + 1 := by
        simp [List.length_cons]; omega
      rw [hidx]
      show x :: (xt ++ ys).set (xt.length + k) v = x :: (xt ++ ys.set k v)
      rw [ih]

lemma copyFrom_length (aliased : Bool) (src dst : List Pt) (old : Nat) (k : Nat) :
    (copyFrom aliased src dst old k).length = dst.length := by
  induction k with
  | zero => rfl
  | succ k ih => simp [copyFrom, List.length_set, ih]

lemma vecResize_length (v : List Pt) (n : Nat) : (vecResize v n).length = n := by
  simp [vecResize, List.length_take, List.length_replicate]
  omega

lemma vecResize_of_le (v : List Pt) (n : Nat) (h : v.length ≤ n) :
    vecResize v n = v ++ List.replicate (n - v.length) vzero := by
  rw [vecResize, List.take_of_length_le h]

lemma set_append_idx (xs ys : List Pt) (i k : Nat) (v : Pt)
    (h : i = xs.length + k) : (xs ++ ys).set i v = xs ++ ys.set k v := by
  subst h
  exact set_append_right xs ys k v

lemma copyFrom_false_eq (src dst : List Pt) (old : Nat) (k : Nat)
    (hk : k ≤ src.length) (hd : old + src.length ≤ dst.length) :
    copyFrom false src dst old k
      = dst.take old ++ (src.take k ++ dst.drop (old + k)) := by
  induction k with
  | zero =>
      show dst = dst.take old ++ (src.take 0 ++ dst.drop (old + 0))
      simp
  | succ k ih =>
      have hk1 : k ≤ src.length := Nat.le_of_succ_le hk
      have hks : k < src.length := hk
      have hod : old + k < dst.length := by omega
      rw [copyFrom, ih hk1]
      show (dst.take old ++ (src.take k ++ dst.drop (old + k))).set (old + k)
          (src.getD k vzero)
        = dst.take old ++ (src.take (k + 1) ++ dst.drop (old + (k + 1)))
      rw [← List.append_assoc]
      rw [set_append_idx (dst.take old ++ src.take k) (dst.drop (old + k))
        (old + k) 0 (src.getD k vzero)
        (by simp [List.length_append, List.length_take]; omega)]
      rw [List.drop_eq_getElem_cons hod]
      simp only [List.set_cons_zero]
      rw [List.getD_eq_getElem src vzero hks]
      rw [List.append_assoc]
      congr 1
      have htake : src.take (k + 1) = src.take k ++ [src[k]] := by
        rw [← List.take_concat_get src k hks, List.concat_eq_append]
      rw [htake, List.append_assoc]
      rfl

lemma copyFrom_true_eq (ns src : List Pt) (k : Nat) (hk : k ≤ ns.length) :
    copyFrom true src (ns ++ List.replicate ns.length vzero) ns.length k
      = ns ++ (ns.take k ++ List.replicate (ns.length - k) vzero) := by
  induction k with
  | zero =>
      show ns ++ List.replicate ns.length vzero
        = ns ++ (ns.take 0 ++ List.replicate (ns.length - 0) vzero)
      simp
  | succ k ih =>
      have hk1 : k ≤ ns.length := Nat.le_of_succ_le hk
      have hks : k < ns.length := hk
      rw [copyFrom, ih hk1]
      show (ns ++ (ns.take k ++ List.replicate (ns.length - k) vzero)).set
          (ns.length + k)
          ((ns ++ (ns.take k ++ List.replicate (ns.length - k) vzero)).getD k vzero)
        = ns ++ (ns.take (k + 1) ++ List.replicate (ns.length - (k + 1)) vzero)
      rw [getD_append_left _ _ _ _ hks]
      rw [← List.append_assoc]
      rw [set_append_idx (ns ++ ns.take k)
        (List.replicate (ns.length - k) vzero) (ns.length + k) 0
        (ns.getD k vzero)
        (by simp [List.length_append, List.length_take]; omega)]
      have hrep : List.replicate (ns.length - k) vzero
          = vzero :: List.replicate (ns.length - (k + 1)) vzero := by
        have h1 : ns.length - k = (ns.length - (k + 1)) + 1 := by omega
        rw [h1, List.replicate_succ]
      rw [hrep]
      simp only [List.set_cons_zero]
      rw [List.getD_eq_getElem ns vzero hks]
      rw [List.append_assoc]
      congr 1
      have htake : ns.take (k + 1) = ns.take k ++ [ns[k]] := by
        rw [← List.take_concat_get ns k hks, List.concat_eq_append]
      rw [htake, List.append_assoc]
      rfl

lemma selfCopy (v src : List Pt) (n : Nat) (hv : v.length = n) :
    copyFrom true src (vecResize v (n + n)) n n = v ++ v := by
  subst hv
  have h2 : v.length + v.length - v.length = v.length := by omega
  have h1 : vecResize v (v.length + v.length)
      = v ++ List.replicate v.length vzero := by
    rw [vecResize_of_le v _ (by omega), h2]
  rw [h1, copyFrom_true_eq v src v.length (le_refl _)]
  simp

lemma appendCopy (v src : List Pt) (old : Nat) (hv : v.length ≤ old) :
    copyFrom false src (vecResize v (old + src.length)) old src.length
      = vecResize v old ++ src := by
  have hlen : (vecResize v (old + src.length)).length = old + src.length :=
    vecResize_length _ _
  rw [copyFrom_false_eq src (vecResize v (old + src.length)) old src.length
    (le_refl _) (by rw [hlen])]
  rw [List.take_length]
  rw [List.drop_eq_nil_of_le (by rw [hlen])]
  rw [List.append_nil]
  congr 1
  simp only [vecResize]
  rw [List.take_of_length_le (le_trans hv (Nat.le_add_right _ _))]
  rw [List.take_append_eq_append_take]
  rw [List.take_of_length_le hv]
  rw [List.take_replicate]
  have hmin : min (old - v.length) (old + src.length - v.length)
      = old - v.length := Nat.min_eq_left (by omega)
  rw [hmin]

lemma addAssign_eq (a b : PointCloud) (hb : ¬ IsEmpty b) :
    AddAssign a b =
      { points := copyFrom false b.points
          (vecResize a.points (a.points.length + b.points.length))
          a.points.length b.points.length,
        normals := if (¬ HasPoints a ∨ HasNormals a) ∧ HasNormals b then
            copyFrom false b.normals
              (vecResize a.normals (a.points.length + b.points.length))
              a.points.length b.points.length
          else [],
        colors := if (¬ HasPoints a ∨ HasColors a) ∧ HasColors b then
            copyFrom false b.colors
              (vecResize a.colors (a.points.length + b.points.length))
              a.points.length b.points.length
          else [] } := by
  simp only [AddAssign, AddAssignCore, Bool.cond_false]
  rw [if_neg hb]

lemma selfAddAssign_eq (a : PointCloud) (ha : ¬ IsEmpty a) :
    SelfAddAssign a =
      { points := copyFrom true a.points
          (vecResize a.points (a.points.length + a.points.length))
          a.points.length a.points.length,
        normals := if (¬ HasPoints a ∨ HasNormals a) ∧ HasNormals a then
            copyFrom true a.normals
              (vecResize a.normals (a.points.length + a.points.length))
              a.points.length a.points.length
          else [],
        colors := if (¬ HasPoints a ∨ HasColors a) ∧ HasColors a then
            copyFrom true a.colors
              (vecResize a.colors (a.points.length + a.points.length))
              a.points.length a.points.length
          else [] } := by
  simp only [SelfAddAssign, AddAssignCore, Bool.cond_true]
  rw [if_neg ha]

lemma if_ne_nil (c : Prop) [Decidable c] (l : List Pt) (hl : l ≠ []) :
    ((if c then l else []) ≠ [] ↔ c) := by
  by_cases h : c
  · simp [h, hl]
  · simp [h]

/-- The empty cloud, argument of the early-return branch of operator+=. -/
def emptyPC : PointCloud := ⟨[], [], []⟩

/-- A one-point cloud carrying a normal. -/
def cexA : PointCloud := ⟨[(0, 0, 0)], [(1, 0, 0)], []⟩

/-- A one-point cloud carrying a normal, used as a non-empty right operand. -/
def cexB : PointCloud := ⟨[(2, 0, 0)], [(0, 1, 0)], []⟩

/-- C10: appending an empty cloud via operator+= returns the left operand
entirely unchanged (points, normals and colors all retained), because of the
early return on an empty argument. -/
theorem c10_appendEmpty (a b : PointCloud) (hb : IsEmpty b) : AddAssign a b = a := by
  simp only [AddAssign, AddAssignCore, Bool.cond_false]
  rw [if_pos hb]

/-- Witness for C10: appending the empty cloud to a cloud that has points and
normals leaves it unchanged. -/
theorem c10_appendEmpty_witness : IsEmpty emptyPC ∧ AddAssign cexA emptyPC = cexA :=
  ⟨by decide, c10_appendEmpty cexA emptyPC (by decide)⟩

/-- C2 counterexample: for A a one-point cloud with a normal and B the empty
cloud, `A += B` keeps A's normals even though B has none, so the claimed
biconditional fails on that pair. -/
theorem c2_counterexample :
    ¬ (HasNormals (AddAssign cexA emptyPC) ↔
        HasNormals emptyPC ∧ (HasNormals cexA ∨ IsEmpty cexA)) := by decide

/-- C2 (amended): for every pair with a non-empty right operand B, after
`A += B` the result carries normals iff B has normals and (A had normals or A
was empty); the identical rule holds for colors.  (When B is empty the
operator returns A unchanged, so the rule does not apply.) -/
theorem c2_attrPresence (a b : PointCloud) (hb : ¬ IsEmpty b) :
    (HasNormals (AddAssign a b) ↔ HasNormals b ∧ (HasNormals a ∨ IsEmpty a)) ∧
    (HasColors (AddAssign a b) ↔ HasColors b ∧ (HasColors a ∨ IsEmpty a)) := by
  have hbp : b.points ≠ [] := not_not.mp hb
  have hlen : 0 < a.points.length + b.points.length := by
    have := List.length_pos.mpr hbp
    omega
  rw [addAssign_eq a b hb]
  constructor
  · have hne : copyFrom false b.normals
        (vecResize a.normals (a.points.length + b.points.length))
        a.points.length b.points.length ≠ [] := by
      intro h
      have h2 := congrArg List.length h
      rw [copyFrom_length, vecResize_length] at h2
      simp only [List.length_nil] at h2
      omega
    show ((if (¬ HasPoints a ∨ HasNormals a) ∧ HasNormals b then _ else []) ≠ []
      ↔ _)
    rw [if_ne_nil _ _ hne]
    simp only [IsEmpty]
    tauto
  · have hne : copyFrom false b.colors
        (vecResize a.colors (a.points.length + b.points.length))
        a.points.length b.points.length ≠ [] := by
      intro h
      have h2 := congrArg List.length h
      rw [copyFrom_length, vecResize_length] at h2
      simp only [List.length_nil] at h2
      omega
    show ((if (¬ HasPoints a ∨ HasColors a) ∧ HasColors b then _ else []) ≠ []
      ↔ _)
    rw [if_ne_nil _ _ hne]
    simp only [IsEmpty]
    tauto

/-- Witness for C2 (amended) at two concrete one-point clouds with normals. -/
theorem c2_attrPresence_witness :
    ¬ IsEmpty cexB ∧
      (HasNormals (AddAssign cexA cexB) ↔
        HasNormals cexB ∧ (HasNormals cexA ∨ IsEmpty cexA)) :=
  ⟨by decide, (c2_attrPresence cexA cexB (by decide)).1⟩

/-- C3: self-concatenation `A += A` on a cloud of N points (whose attribute
sequences are empty or of length N) yields 2N points, with both halves equal
to the original contents — the index-based copy into the pre-resized storage
never reads an already-overwritten slot — and the same holds for the normals
and the colors whenever they are present. -/
theorem c3_selfAppend (a : PointCloud)
    (hn : a.normals = [] ∨ a.normals.length = a.points.length)
    (hc : a.colors = [] ∨ a.colors.length = a.points.length) :
    (SelfAddAssign a).points.length = 2 * a.points.length ∧
    (SelfAddAssign a).points = a.points ++ a.points ∧
    (HasNormals a → (SelfAddAssign a).normals = a.normals ++ a.normals) ∧
    (HasColors a → (SelfAddAssign a).colors = a.colors ++ a.colors) := by
  by_cases ha : IsEmpty a
  · have hap : a.points = [] := not_not.mp ha
    have hres : SelfAddAssign a = a := by
      simp only [SelfAddAssign, AddAssignCore, Bool.cond_true]
      rw [if_pos ha]
    rw [hres, hap]
    refine ⟨by simp, by simp, ?_, ?_⟩
    · intro hn2
      rcases hn with h | h
      · exact absurd h hn2
      · rw [hap] at h
        simp only [List.length_nil] at h
        exact absurd (List.length_eq_zero.mp h) hn2
    · intro hc2
      rcases hc with h | h
      · exact absurd h hc2
      · rw [hap] at h
        simp only [List.length_nil] at h
        exact absurd (List.length_eq_zero.mp h) hc2
  · rw [selfAddAssign_eq a ha]
    have hpts : copyFrom true a.points
        (vecResize a.points (a.points.length + a.points.length))
        a.points.length a.points.length = a.points ++ a.points :=
      selfCopy a.points a.points a.points.length rfl
    refine ⟨?_, hpts, ?_, ?_⟩
    · show (copyFrom true a.points _ _ _).length = 2 * a.points.length
      rw [hpts, List.length_append]
      omega
    · intro hna
      have hcnd : (¬ HasPoints a ∨ HasNormals a) ∧ HasNormals a :=
        ⟨Or.inr hna, hna⟩
      show (if (¬ HasPoints a ∨ HasNormals a) ∧ HasNormals a then _ else [])
        = a.normals ++ a.normals
      rw [if_pos hcnd]
      have hlen2 : a.normals.length = a.points.length := by
        rcases hn with h | h
        · exact absurd h hna
        · exact h
      exact selfCopy a.normals a.normals a.points.length hlen2
    · intro hca
      have hcnd : (¬ HasPoints a ∨ HasColors a) ∧ HasColors a :=
        ⟨Or.inr hca, hca⟩
      show (if (¬ HasPoints a ∨ HasColors a) ∧ HasColors a then _ else [])
        = a.colors ++ a.colors
      rw [if_pos hcnd]
      have hlen2 : a.colors.length = a.points.length := by
        rcases hc with h | h
        · exact absurd h hca
        · exact h
      exact selfCopy a.colors a.colors a.points.length hlen2

/-- A two-point cloud carrying normals and colors. -/
def cexF : PointCloud :=
  ⟨[(0, 0, 0), (1, 1, 1)], [(1, 0, 0), (0, 1, 0)], [(1, 1, 0), (0, 0, 1)]⟩

/-- Witness for C3 at a concrete two-point cloud with normals and colors. -/
theorem c3_selfAppend_witness :
    (cexF.normals = [] ∨ cexF.normals.length = cexF.points.length) ∧
      (SelfAddAssign cexF).points = cexF.points ++ cexF.points :=
  ⟨by decide, (c3_selfAppend cexF (by decide) (by decide)).2.1⟩

/-- A 3×3 matrix (Eigen::Matrix3d), entry `cij` at row i, column j. -/
structure Mat3 where
  c00 : ℚ
  c01 : ℚ
  c02 : ℚ
  c10 : ℚ
  c11 : ℚ
  c12 : ℚ
  c20 : ℚ
  c21 : ℚ
  c22 : ℚ
deriving DecidableEq

/-- Eigen::Matrix3d::Identity. -/
def identityMat3 : Mat3 := ⟨1, 0, 0, 0, 1, 0, 0, 0, 1⟩

/-- The nine running sums of ComputePointCloudMeanAndCovariance
(`Eigen::Matrix<double, 9, 1> cumulants`). -/
structure Cumulants where
  s0 : ℚ
  s1 : ℚ
  s2 : ℚ
  s3 : ℚ
  s4 : ℚ
  s5 : ℚ
  s6 : ℚ
  s7 : ℚ
  s8 : ℚ
deriving DecidableEq

/-- Initial value `cumulants.setZero()`. -/
def zeroCumulants : Cumulants := ⟨0, 0, 0, 0, 0, 0, 0, 0, 0⟩

/-- One iteration of the accumulation loop over the points. -/
def accumulate (c : Cumulants) (p : Pt) : Cumulants :=
  ⟨c.s0 + px p, c.s1 + py p, c.s2 + pz p,
   c.s3 + px p * px p, c.s4 + px p * py p, c.s5 + px p * pz p,
   c.s6 + py p * py p, c.s7 + py p * pz p, c.s8 + pz p * pz p⟩

/-- The statement `cumulants /= (double)input.points_.size()`. -/
def divCum (c : Cumulants) (n : ℚ) : Cumulants :=
  ⟨c.s0 / n, c.s1 / n, c.s2 / n, c.s3 / n, c.s4 / n, c.s5 / n, c.s6 / n,
   c.s7 / n, c.s8 / n⟩

/-- The accumulation pass of ComputePointCloudMeanAndCovariance. -/
def cumulantsOf (input : PointCloud) : Cumulants :=
  input.points.foldl accumulate zeroCumulants

/-- Assembly of the mean vector and the covariance matrix from the averaged
cumulants; each off-diagonal entry is computed once and mirrored. -/
def meanCovFromCum (c : Cumulants) : Pt × Mat3 :=
  let mean : Pt := (c.s0, c.s1, c.s2)
  let v01 := c.s4 - c.s0 * c.s1
  let v02 := c.s5 - c.s0 * c.s2
  let v12 := c.s7 - c.s1 * c.s2
  let covariance : Mat3 :=
    { c00 := c.s3 - c.s0 * c.s0, c01 := v01, c02 := v02,
      c10 := v01, c11 := c.s6 - c.s1 * c.s1, c12 := v12,
      c20 := v02, c21 := v12, c22 := c.s8 - c.s2 * c.s2 }
  (mean, covariance)

/-- ComputePointCloudMeanAndCovariance: empty input gives zero mean and the
identity covariance; otherwise one linear pass accumulates the nine sums,
all nine are divided by N, and the covariance entries are formed from the
already-averaged moments. -/
def ComputePointCloudMeanAndCovariance (input : PointCloud) : Pt × Mat3 :=
  if IsEmpty input then (vzero, identityMat3)
  else meanCovFromCum (divCum (cumulantsOf input) (input.points.length : ℚ))

/-- Sum of `f` over a list of points. -/
def Ssum (f : Pt → ℚ) (l : List Pt) : ℚ := (l.map f).sum

/-- Spec-side per-point average of `f`: the running sum divided by the point
count N. -/
def Eavg (pts : List Pt) (f : Pt → ℚ) : ℚ := Ssum f pts / (pts.length : ℚ)

lemma foldl_accumulate (pts : List Pt) (c : Cumulants) :
    pts.foldl accumulate c =
      ⟨c.s0 + Ssum px pts, c.s1 + Ssum py pts, c.s2 + Ssum pz pts,
       c.s3 + Ssum (fun p => px p * px p) pts,
       c.s4 + Ssum (fun p => px p * py p) pts,
       c.s5 + Ssum (fun p => px p * pz p) pts,
       c.s6 + Ssum (fun p => py p * py p) pts,
       c.s7 + Ssum (fun p => py p * pz p) pts,
       c.s8 + Ssum (fun p => pz p * pz p) pts⟩ := by
  induction pts generalizing c with
  | nil => simp [Ssum]
  | cons p ps ih =>
      rw [List.foldl_cons, ih]
      simp only [accumulate, Ssum, List.map_cons, List.sum_cons,
        Cumulants.mk.injEq]
      refine ⟨?_, ?_, ?_, ?_, ?_, ?_, ?_, ?_, ?_⟩ <;> ring

/-- C1: on a non-empty cloud the returned mean is the triple of first-order
sums each divided by N, and every covariance entry is the averaged raw second
moment minus the product of the already-averaged first moments, the division
by N happening before the product of first moments is taken; the matrix is
symmetric since the off-diagonal entries are mirrored.  On an empty cloud the
result is the zero mean and the identity covariance. -/
theorem c1_meanAndCovariance (input : PointCloud) :
    (IsEmpty input →
      ComputePointCloudMeanAndCovariance input = (vzero, identityMat3)) ∧
    (¬ IsEmpty input →
      (ComputePointCloudMeanAndCovariance input).1
          = (Eavg input.points px, Eavg input.points py, Eavg input.points pz) ∧
      ((ComputePointCloudMeanAndCovariance input).2.c00
          = Eavg input.points (fun p => px p * px p)
            - Eavg input.points px * Eavg input.points px ∧
       (ComputePointCloudMeanAndCovariance input).2.c01
          = Eavg input.points (fun p => px p * py p)
            - Eavg input.points px * Eavg input.points py ∧
       (ComputePointCloudMeanAndCovariance input).2.c02
          = Eavg input.points (fun p => px p * pz p)
            - Eavg input.points px * Eavg input.points pz ∧
       (ComputePointCloudMeanAndCovariance input).2.c11
          = Eavg input.points (fun p => py p * py p)
            - Eavg input.points py * Eavg input.points py ∧
       (ComputePointCloudMeanAndCovariance input).2.c12
          = Eavg input.points (fun p => py p * pz p)
            - Eavg input.points py * Eavg input.points pz ∧
       (ComputePointCloudMeanAndCovariance input).2.c22
          = Eavg input.points (fun p => pz p * pz p)
            - Eavg input.points pz * Eavg input.points pz) ∧
      ((ComputePointCloudMeanAndCovariance input).2.c10
          = (ComputePointCloudMeanAndCovariance input).2.c01 ∧
       (ComputePointCloudMeanAndCovariance input).2.c20
          = (ComputePointCloudMeanAndCovariance input).2.c02 ∧
       (ComputePointCloudMeanAndCovariance input).2.c21
          = (ComputePointCloudMeanAndCovariance input).2.c12)) := by
  constructor
  · intro h
    simp [ComputePointCloudMeanAndCovariance, h]
  · intro h
    have hunf : ComputePointCloudMeanAndCovariance input
        = meanCovFromCum (divCum (cumulantsOf input)
            (input.points.length : ℚ)) := by
      simp [ComputePointCloudMeanAndCovariance, h]
    rw [hunf]
    rw [cumulantsOf, foldl_accumulate]
    simp only [meanCovFromCum, divCum, zeroCumulants, zero_add, Eavg]
    repeat' apply And.intro
    all_goals first | rfl | trivial

/-- Witness for C1 at the concrete four-point cloud of §8. -/
theorem c1_meanAndCovariance_witness :
    ¬ IsEmpty ex4 ∧
      (ComputePointCloudMeanAndCovariance ex4).1
        = (Eavg ex4.points px, Eavg ex4.points py, Eavg ex4.points pz) :=
  ⟨by decide, ((c1_meanAndCovariance ex4).2 (by decide)).1⟩

/-- Squared Euclidean distance between two points. -/
def sqDist (q p : Pt) : ℚ :=
  (px q - px p) * (px q - px p) + (py q - py p) * (py q - py p)
    + (pz q - pz p) * (pz q - pz p)

/-- Insertion into an ascending list. -/
def insertAsc (x : ℚ) : List ℚ → List ℚ
  | [] => [x]
  | y :: ys => if x ≤ y then x :: y :: ys else y :: insertAsc x ys

/-- Ascending insertion sort. -/
def sortAsc (l : List ℚ) : List ℚ := l.foldr insertAsc []

/-- Modelled from the spec: KDTreeFlann is not among the sources; §4.2 and §6
specify `search_knn(query, k)` as returning `(count, indices, squared
distances)` with the squared distances of the k nearest indexed points sorted
ascending, and count possibly below k when the index holds fewer than k
points.  We model the returned squared-distance list as the k smallest
squared distances to the query in ascending order, and the count as its
length. -/
def SearchKNN (indexed : List Pt) (q : Pt) (k : Nat) : Nat × List ℚ :=
  let d := (sortAsc (indexed.map (sqDist q))).take k
  (d.length, d)

/-- ComputePointCloudToPointCloudDistance, in the squared-distance domain:
for every source point, query k=1 against the index over the target; a query
that finds nothing records 0, otherwise the single returned squared distance
is recorded (the C++ function returns its square root). -/
def ComputePointCloudToPointCloudDistanceSq (source target : PointCloud) :
    List ℚ :=
  source.points.map (fun p =>
    if (SearchKNN target.points p 1).1 = 0 then 0
    else (SearchKNN target.points p 1).2.getD 0 0)

/-- ComputePointCloudNearestNeighborDistance, in the squared-distance domain:
for every input point, query k=2 against the index over the input itself; a
query returning at most one hit records 0, otherwise the second returned
squared distance is recorded (the C++ function returns its square root). -/
def ComputePointCloudNearestNeighborDistanceSq (input : PointCloud) : List ℚ :=
  input.points.map (fun p =>
    if (SearchKNN input.points p 2).1 ≤ 1 then 0
    else (SearchKNN input.points p 2).2.getD 1 0)

lemma insertAsc_length (x : ℚ) (l : List ℚ) :
    (insertAsc x l).length = l.length + 1 := by
  induction l with
  | nil => rfl
  | cons y ys ih =>
      by_cases h : x ≤ y
      · simp [insertAsc, h]
      · simp [insertAsc, h, ih]

lemma sortAsc_length (l : List ℚ) : (sortAsc l).length = l.length := by
  induction l with
  | nil => rfl
  | cons y ys ih =>
      have h2 : (sortAsc ys).length = ys.length := ih
      show (insertAsc y (sortAsc ys)).length = ys.length + 1
      rw [insertAsc_length, h2]

lemma searchKNN_count (indexed : List Pt) (q : Pt) (k : Nat) :
    (SearchKNN indexed q k).1 = min k indexed.length := by
  simp [SearchKNN, List.length_take, sortAsc_length, List.length_map]

lemma getD_map_sqrt (l : List ℚ) (i : Nat) (hi : i < l.length) :
    (l.map (fun z : ℚ => Real.sqrt (z : ℝ))).getD i 1
      = Real.sqrt ((l.getD i 0 : ℚ) : ℝ) := by
  have hi2 : i < (l.map (fun z : ℚ => Real.sqrt (z : ℝ))).length := by
    rw [List.length_map]
    exact hi
  rw [List.getD_eq_getElem _ 1 hi2, List.getElem_map,
    List.getD_eq_getElem _ 0 hi]

lemma getD_map_pt (f : Pt → ℚ) (l : List Pt) (i : Nat) (hi : i < l.length) :
    (l.map f).getD i 0 = f (l.getD i vzero) := by
  have hi2 : i < (l.map f).length := by
    rw [List.length_map]
    exact hi
  rw [List.getD_eq_getElem _ 0 hi2, List.getElem_map,
    List.getD_eq_getElem _ vzero hi]

/-- C6: ComputePointCloudToPointCloudDistance indexes the target cloud and,
for every source point, queries k=1; output slot i is the square root of the
single returned squared distance, the query comes up empty exactly when the
target is empty, in which case slot i is 0.0; every source point gets a slot
(processing never stops early). -/
theorem c6_pointCloudDistance (source target : PointCloud) (i : Nat)
    (hi : i < source.points.length) :
    (ComputePointCloudToPointCloudDistanceSq source target).length
        = source.points.length ∧
    ((SearchKNN target.points (source.points.getD i vzero) 1).1 = 0
        ↔ IsEmpty target) ∧
    ((ComputePointCloudToPointCloudDistanceSq source target).map
        (fun z : ℚ => Real.sqrt (z : ℝ))).getD i 1
      = (if (SearchKNN target.points (source.points.getD i vzero) 1).1 = 0
         then 0
         else Real.sqrt
           (((SearchKNN target.points (source.points.getD i vzero) 1).2.getD 0 0
              : ℚ) : ℝ)) := by
  refine ⟨by simp [ComputePointCloudToPointCloudDistanceSq], ?_, ?_⟩
  · rw [searchKNN_count]
    constructor
    · intro h
      have hz : target.points.length = 0 := by omega
      simp only [IsEmpty, HasPoints, not_not]
      exact List.length_eq_zero.mp hz
    · intro h
      have hz : target.points = [] := not_not.mp h
      simp [hz]
  · have hlenSq : i < (ComputePointCloudToPointCloudDistanceSq source target).length := by
      simpa [ComputePointCloudToPointCloudDistanceSq] using hi
    rw [getD_map_sqrt _ i hlenSq]
    have hslot : (ComputePointCloudToPointCloudDistanceSq source target).getD i 0
        = (if (SearchKNN target.points (source.points.getD i vzero) 1).1 = 0
           then 0
           else (SearchKNN target.points (source.points.getD i vzero) 1).2.getD 0 0) := by
      show (source.points.map (fun p =>
          if (SearchKNN target.points p 1).1 = 0 then 0
          else (SearchKNN target.points p 1).2.getD 0 0)).getD i 0 = _
      exact getD_map_pt _ source.points i hi
    rw [hslot]
    split_ifs with hc
    · simp
    · rfl

/-- Witness for C6 at a concrete source and target. -/
theorem c6_pointCloudDistance_witness :
    0 < ex4.points.length ∧
      (ComputePointCloudToPointCloudDistanceSq ex4 cexA).length
        = ex4.points.length :=
  ⟨by decide, (c6_pointCloudDistance ex4 cexA 0 (by decide)).1⟩

/-- C5: ComputePointCloudNearestNeighborDistance indexes the input cloud
itself and, for every point, queries k=2; output slot i is the square root of
the second returned squared distance, or 0.0 when fewer than two hits come
back; on a cloud of two coincident points every slot is 0.0. -/
theorem c5_nearestNeighbor (input : PointCloud) (i : Nat)
    (hi : i < input.points.length) :
    (ComputePointCloudNearestNeighborDistanceSq input).length
        = input.points.length ∧
    ((ComputePointCloudNearestNeighborDistanceSq input).map
        (fun z : ℚ => Real.sqrt (z : ℝ))).getD i 1
      = (if (SearchKNN input.points (input.points.getD i vzero) 2).1 ≤ 1
         then 0
         else Real.sqrt
           (((SearchKNN input.points (input.points.getD i vzero) 2).2.getD 1 0
              : ℚ) : ℝ)) ∧
    (∀ p : Pt,
      (ComputePointCloudNearestNeighborDistanceSq ⟨[p, p], [], []⟩).map
          (fun z : ℚ => Real.sqrt (z : ℝ)) = [0, 0]) := by
  refine ⟨by simp [ComputePointCloudNearestNeighborDistanceSq], ?_, ?_⟩
  · have hlenSq : i < (ComputePointCloudNearestNeighborDistanceSq input).length := by
      simpa [ComputePointCloudNearestNeighborDistanceSq] using hi
    rw [getD_map_sqrt _ i hlenSq]
    have hslot : (ComputePointCloudNearestNeighborDistanceSq input).getD i 0
        = (if (SearchKNN input.points (input.points.getD i vzero) 2).1 ≤ 1
           then 0
           else (SearchKNN input.points (input.points.getD i vzero) 2).2.getD 1 0) := by
      show (input.points.map (fun p =>
          if (SearchKNN input.points p 2).1 ≤ 1 then 0
          else (SearchKNN input.points p 2).2.getD 1 0)).getD i 0 = _
      exact getD_map_pt _ input.points i hi
    rw [hslot]
    split_ifs with hc
    · simp
    · rfl
  · intro p
    have hd : sqDist p p = 0 := by
      simp [sqDist, sub_self]
    have hs2 : sortAsc [(0 : ℚ), 0] = [0, 0] := by
      simp [sortAsc, insertAsc]
    simp [ComputePointCloudNearestNeighborDistanceSq, SearchKNN, hd, hs2,
      Real.sqrt_zero]

/-- Witness for C5 at the concrete four-point cloud of §8. -/
theorem c5_nearestNeighbor_witness :
    0 < ex4.points.length ∧
      (ComputePointCloudNearestNeighborDistanceSq ex4).length
        = ex4.points.length :=
  ⟨by decide, (c5_nearestNeighbor ex4 0 (by decide)).1⟩

/-- The three mirrored arrays of the CUDA path: `d_points_`, `d_normals_`,
`d_colors_`. -/
inductive DeviceArray where
  | points
  | normals
  | colors
deriving DecidableEq

/-- PointCloud::UpdateDeviceMemory (the zero-argument overload):
`return UpdateDevicePoints() && UpdateDeviceNormals() && UpdateDeviceColors();`.
`ok` is the outcome oracle of each single-array refresh (each depends on the
CUDA allocation and copy results); the second component records which
refreshes were actually attempted, in order, under the short-circuiting
semantics of the C++ `&&`. -/
def UpdateDeviceMemoryAll (ok : DeviceArray → Bool) : Bool × List DeviceArray :=
  if ok DeviceArray.points then
    if ok DeviceArray.normals then
      (ok DeviceArray.colors,
        [DeviceArray.points, DeviceArray.normals, DeviceArray.colors])
    else (false, [DeviceArray.points, DeviceArray.normals])
  else (false, [DeviceArray.points])

/-- An outcome oracle under which the points refresh fails and the other two
would succeed. -/
def failPointsOracle : DeviceArray → Bool := fun a =>
  match a with
  | DeviceArray.points => false
  | DeviceArray.normals => true
  | DeviceArray.colors => true

/-- C4 (code behaviour at the failing input): when the points refresh fails,
the source's short-circuiting `&&` returns false after attempting only the
points refresh — the normals and colors refreshes are skipped, contrary to
the claim that every one of the three refreshes is always attempted. -/
theorem c4_updateAll_shortCircuits :
    UpdateDeviceMemoryAll failPointsOracle = (false, [DeviceArray.points]) ∧
    (UpdateDeviceMemoryAll failPointsOracle).2
      ≠ [DeviceArray.points, DeviceArray.normals, DeviceArray.colors] := by
  decide

/-- PointCloud::ReleaseDeviceMemory(double**): the first component is the
value returned — `none` models the control path that reaches the closing
brace of the non-void function without executing any return statement (the
path on which `cudaFree` succeeds and the handle is set to NULL); the second
component is the final value of the handle.  `freeOk` is the outcome of the
`cudaFree` call. -/
def ReleaseDeviceMemory (freeOk : Bool) (d : Option Unit) :
    Option Bool × Option Unit :=
  match d with
  | none => (some true, none)
  | some buf => if freeOk then (none, none) else (some false, some buf)

/-- C7 (code behaviour): releasing an already-null mirror is a no-op that
returns success, but releasing a present mirror whose free succeeds sets the
handle to null while falling off the end of the function without returning a
value — so the claimed "returns success" does not hold on the first of two
successive releases of a live mirror. -/
theorem c7_release_fallsThrough :
    ReleaseDeviceMemory true none = (some true, none) ∧
    ReleaseDeviceMemory true (some ()) = (none, none) := by
  decide

end Open3D
